import Mathlib

/-!
Verification of the GhostRider proof-of-work implementation
(`ghostrider_ffi.c`, `cryptonight.c`, `keccak.c`).

Shallow embedding conventions:
* bytes are `Nat` values in `0..255`; 32-bit and 64-bit machine words are
  `Nat` values reduced modulo `2^32` / `2^64` exactly where the C code's
  fixed-width arithmetic wraps;
* the 200-byte Keccak state is represented as its 25 little-endian 64-bit
  lanes (`List Nat`, length 25), matching the C code's dual byte/lane view
  of `ctx->state`;
* 16-byte scratchpad cells are pairs of 64-bit words `(lo, hi)` in
  little-endian order; the scratchpad itself is a total map from 16-byte
  block index to cell (all scratchpad accesses in the C code are 16-byte
  accesses at 16-byte-aligned byte offsets, see the mask-alignment lemmas);
* the 15 SPH-512 core hashes and the 4 CryptoNight finishing hashes are
  external collaborators (their implementations are not part of this
  repository); they are passed as explicit function parameters
  `bank : Nat → List Nat → List Nat` and `extra : Nat → List Nat → List Nat`.
-/

/-- Truncation to an unsigned 64-bit machine word. -/
def word64 (x : Nat) : Nat := x % (2 ^ 64)

/-- Truncation to an unsigned 32-bit machine word. -/
def word32 (x : Nat) : Nat := x % (2 ^ 32)

/-- Little-endian load of a 64-bit word from 8 bytes of a byte list,
matching `memcpy(&x, p + off, 8)` on a little-endian target. -/
def load64 (bs : List Nat) (off : Nat) : Nat :=
  (List.range 8).foldr (fun k acc => acc * 256 + bs.getD (off + k) 0) 0

/- ────────────────────────────────────────────────────────────────────
   Selection algorithm, embedded from `ghostrider_ffi.c` `select_indices`.

   The C code keeps a `selected[16]` boolean array marking which indices
   have already been emitted; in the embedding an index is "selected"
   exactly when it is a member of the accumulator list `acc`, which holds
   the emitted indices in order.  The C `for` loop `i < 64 && k < n`
   is the recursion guard below.
   ──────────────────────────────────────────────────────────────────── -/

/-- One nibble of the 32-byte seed: nibble `i` is the low (even `i`) or
high (odd `i`) 4 bits of `seed[i / 2]`. -/
def seed_nibble (seed : List Nat) (i : Nat) : Nat :=
  (seed.getD (i / 2) 0 >>> ((i % 2) * 4)) &&& 0x0F

/-- The nibble-scanning loop of `select_indices`: starting at nibble `i`
with already-emitted indices `acc`, emit `nibble % n` on first occurrence
until `n` indices are emitted or all 64 nibbles are consumed. -/
def select_loop (n : Nat) (seed : List Nat) (i : Nat) (acc : List Nat) : List Nat :=
  if h : i < 64 ∧ acc.length < n then
    select_loop n seed (i + 1)
      (if seed_nibble seed i % n ∈ acc then acc else acc ++ [seed_nibble seed i % n])
  else
    acc
termination_by 64 - i
decreasing_by
  omega

/-- `select_indices`, embedded from `ghostrider_ffi.c`: nibble-scan phase,
then append every never-selected index in ascending order (the C code's
second loop; its `k < n` guard can never cut the fill short because once
`k = n` all `n` indices are already selected). -/
def select_indices (n : Nat) (seed : List Nat) : List Nat :=
  let sel := select_loop n seed 0 []
  sel ++ (List.range n).filter (fun j => decide (j ∉ sel))

/- ────────────────────────────────────────────────────────────────────
   Keccak, embedded from `keccak.c` (`gr_keccakf`, `gr_keccak`).
   Lanes are little-endian 64-bit words of the 200-byte state.
   ──────────────────────────────────────────────────────────────────── -/

/-- `ROTL64`, on a value already below `2^64`. -/
def rotl64 (x n : Nat) : Nat := ((x <<< n) % (2 ^ 64)) ||| (x >>> (64 - n))

/-- The 24 Keccak round constants `keccakf_rndc`. -/
def keccakf_rndc : List Nat :=
  [0x0000000000000001, 0x0000000000008082, 0x800000000000808a,
   0x8000000080008000, 0x000000000000808b, 0x0000000080000001,
   0x8000000080008081, 0x8000000000008009, 0x000000000000008a,
   0x0000000000000088, 0x0000000080008009, 0x000000008000000a,
   0x000000008000808b, 0x800000000000008b, 0x8000000000008089,
   0x8000000000008003, 0x8000000000008002, 0x8000000000000080,
   0x000000000000800a, 0x800000008000000a, 0x8000000080008081,
   0x8000000000008080, 0x0000000080000001, 0x8000000080008008]

/-- Theta step: lane `d` is XOR-ed with
`bc[(d%5+4)%5] ^ ROTL64(bc[(d%5+1)%5], 1)`. -/
def keccak_theta (st : List Nat) : List Nat :=
  let bc := fun i => st.getD i 0 ^^^ st.getD (i + 5) 0 ^^^ st.getD (i + 10) 0 ^^^
    st.getD (i + 15) 0 ^^^ st.getD (i + 20) 0
  (List.range 25).map fun d =>
    st.getD d 0 ^^^ (bc ((d % 5 + 4) % 5) ^^^ rotl64 (bc ((d % 5 + 1) % 5)) 1)

/-- Source lane for destination lane `d` in the Rho-Pi step (transcribed
from the assignment chain in `gr_keccakf`). -/
def keccak_pi_src (d : Nat) : Nat :=
  [0, 6, 12, 18, 24, 3, 9, 10, 16, 22, 1, 7, 13, 19, 20,
   4, 5, 11, 17, 23, 2, 8, 14, 15, 21].getD d 0

/-- Rotation amount for destination lane `d` in the Rho-Pi step. -/
def keccak_pi_rot (d : Nat) : Nat :=
  [0, 44, 43, 21, 14, 28, 20, 3, 45, 61, 1, 6, 25, 8, 18,
   27, 36, 10, 15, 56, 62, 55, 39, 41, 2].getD d 0

/-- Rho-Pi step. -/
def keccak_rho_pi (st : List Nat) : List Nat :=
  (List.range 25).map fun d => rotl64 (st.getD (keccak_pi_src d) 0) (keccak_pi_rot d)

/-- Chi step: within each row of 5 lanes, `st[j+a] ^= (~st[j+(a+1)%5]) & st[j+(a+2)%5]`
with all reads taken from the pre-Chi values (the C code saves the wrapped
lanes in `bc` for exactly this purpose).  `~x` on `uint64_t` is
`(2^64 - 1) ^^^ x`. -/
def keccak_chi (st : List Nat) : List Nat :=
  (List.range 25).map fun d =>
    st.getD d 0 ^^^
      (((2 ^ 64 - 1) ^^^ st.getD (5 * (d / 5) + (d % 5 + 1) % 5) 0) &&&
        st.getD (5 * (d / 5) + (d % 5 + 2) % 5) 0)

/-- One full Keccak-f round: Theta, Rho-Pi, Chi, Iota. -/
def keccak_round (st : List Nat) (rc : Nat) : List Nat :=
  let st3 := keccak_chi (keccak_rho_pi (keccak_theta st))
  st3.set 0 (st3.getD 0 0 ^^^ rc)

/-- `gr_keccakf`: `rounds` Keccak-f rounds over the 25-lane state. -/
def gr_keccakf (st : List Nat) (rounds : Nat) : List Nat :=
  (List.range rounds).foldl (fun s r => keccak_round s (keccakf_rndc.getD r 0)) st

/-- XOR a 136-byte rate block into the first 17 lanes of the state. -/
def keccak_xor_block (st : List Nat) (blk : List Nat) : List Nat :=
  (List.range 25).map fun i =>
    if i < 17 then st.getD i 0 ^^^ load64 blk (8 * i) else st.getD i 0

/-- Absorption loop of `gr_keccak`: XOR-absorb each full 136-byte block and
permute; pad the final partial block with a `0x01` start byte, zero fill,
and `0x80` OR-ed into the last rate byte; absorb it and permute. -/
def keccak_absorb (st : List Nat) (inp : List Nat) : List Nat :=
  if h : 136 ≤ inp.length then
    keccak_absorb (gr_keccakf (keccak_xor_block st (inp.take 136)) 24) (inp.drop 136)
  else
    let padded := inp ++ 1 :: List.replicate (135 - inp.length) 0
    let blk := padded.take 135 ++ [padded.getD 135 0 ||| 0x80]
    gr_keccakf (keccak_xor_block st blk) 24
termination_by inp.length
decreasing_by
  simp only [List.length_drop]
  omega

/-- `gr_keccak` specialised to `mdlen = 200` (the only way the engine calls
it): the rate is the fixed `HASH_DATA_AREA = 136` bytes, the state starts
all zero, and the digest is the entire resulting 25-lane state. -/
def gr_keccak (inp : List Nat) : List Nat :=
  keccak_absorb (List.replicate 25 0) inp

/- ────────────────────────────────────────────────────────────────────
   Software AES, embedded from `cryptonight.c`.
   ──────────────────────────────────────────────────────────────────── -/

/-- The AES S-box, `saes_data(saes_h0)` from `cryptonight.c`. -/
def saes_sbox : List Nat :=
  [0x63,0x7c,0x77,0x7b,0xf2,0x6b,0x6f,0xc5,0x30,0x01,0x67,0x2b,0xfe,0xd7,0xab,0x76,
   0xca,0x82,0xc9,0x7d,0xfa,0x59,0x47,0xf0,0xad,0xd4,0xa2,0xaf,0x9c,0xa4,0x72,0xc0,
   0xb7,0xfd,0x93,0x26,0x36,0x3f,0xf7,0xcc,0x34,0xa5,0xe5,0xf1,0x71,0xd8,0x31,0x15,
   0x04,0xc7,0x23,0xc3,0x18,0x96,0x05,0x9a,0x07,0x12,0x80,0xe2,0xeb,0x27,0xb2,0x75,
   0x09,0x83,0x2c,0x1a,0x1b,0x6e,0x5a,0xa0,0x52,0x3b,0xd6,0xb3,0x29,0xe3,0x2f,0x84,
   0x53,0xd1,0x00,0xed,0x20,0xfc,0xb1,0x5b,0x6a,0xcb,0xbe,0x39,0x4a,0x4c,0x58,0xcf,
   0xd0,0xef,0xaa,0xfb,0x43,0x4d,0x33,0x85,0x45,0xf9,0x02,0x7f,0x50,0x3c,0x9f,0xa8,
   0x51,0xa3,0x40,0x8f,0x92,0x9d,0x38,0xf5,0xbc,0xb6,0xda,0x21,0x10,0xff,0xf3,0xd2,
   0xcd,0x0c,0x13,0xec,0x5f,0x97,0x44,0x17,0xc4,0xa7,0x7e,0x3d,0x64,0x5d,0x19,0x73,
   0x60,0x81,0x4f,0xdc,0x22,0x2a,0x90,0x88,0x46,0xee,0xb8,0x14,0xde,0x5e,0x0b,0xdb,
   0xe0,0x32,0x3a,0x0a,0x49,0x06,0x24,0x5c,0xc2,0xd3,0xac,0x62,0x91,0x95,0xe4,0x79,
   0xe7,0xc8,0x37,0x6d,0x8d,0xd5,0x4e,0xa9,0x6c,0x56,0xf4,0xea,0x65,0x7a,0xae,0x08,
   0xba,0x78,0x25,0x2e,0x1c,0xa6,0xb4,0xc6,0xe8,0xdd,0x74,0x1f,0x4b,0xbd,0x8b,0x8a,
   0x70,0x3e,0xb5,0x66,0x48,0x03,0xf6,0x0e,0x61,0x35,0x57,0xb9,0x86,0xc1,0x1d,0x9e,
   0xe1,0xf8,0x98,0x11,0x69,0xd9,0x8e,0x94,0x9b,0x1e,0x87,0xe9,0xce,0x55,0x28,0xdf,
   0x8c,0xa1,0x89,0x0d,0xbf,0xe6,0x42,0x68,0x41,0x99,0x2d,0x0f,0xb0,0x54,0xbb,0x16]

/-- `saes_f2`: GF(2^8) doubling with the AES reduction polynomial `0x11b`. -/
def saes_f2 (x : Nat) : Nat := (x <<< 1) ^^^ (((x >>> 7) &&& 1) * 0x11b)

/-- `saes_f3 = saes_f2 x ^ x`. -/
def saes_f3 (x : Nat) : Nat := saes_f2 x ^^^ x

/-- `saes_b2w`: pack four bytes into a little-endian 32-bit word. -/
def saes_b2w (b0 b1 b2 b3 : Nat) : Nat :=
  (b3 <<< 24) ||| (b2 <<< 16) ||| (b1 <<< 8) ||| b0

/-- Entry `i` of T-table `j` (`saes_table[j][i]` in the C source), computed
from the S-box exactly as the `saes_u0 .. saes_u3` macros do. -/
def saes_table (j i : Nat) : Nat :=
  let p := saes_sbox.getD i 0
  match j with
  | 0 => saes_b2w (saes_f2 p) p p (saes_f3 p)
  | 1 => saes_b2w (saes_f3 p) (saes_f2 p) p p
  | 2 => saes_b2w p (saes_f3 p) (saes_f2 p) p
  | _ => saes_b2w p p (saes_f3 p) (saes_f2 p)

/-- `cn_sub_word`: byte-wise S-box substitution of a 32-bit word.  (The C
code needs no mask on `w >> 24` because `w` is a `uint32_t`; the embedding
masks to encode that width.) -/
def cn_sub_word (w : Nat) : Nat :=
  saes_sbox.getD (w &&& 0xff) 0
    ||| (saes_sbox.getD ((w >>> 8) &&& 0xff) 0 <<< 8)
    ||| (saes_sbox.getD ((w >>> 16) &&& 0xff) 0 <<< 16)
    ||| (saes_sbox.getD ((w >>> 24) &&& 0xff) 0 <<< 24)

/-- `cn_rotr32` on `uint32_t` values. -/
def cn_rotr32 (x n : Nat) : Nat := (x >>> n) ||| ((x <<< (32 - n)) % (2 ^ 32))

/-- `sl_xor`: `{a, b, c, d} -> {a, a^b, a^b^c, a^b^c^d}`. -/
def sl_xor (x : List Nat) : List Nat :=
  [x.getD 0 0,
   x.getD 0 0 ^^^ x.getD 1 0,
   x.getD 0 0 ^^^ x.getD 1 0 ^^^ x.getD 2 0,
   x.getD 0 0 ^^^ x.getD 1 0 ^^^ x.getD 2 0 ^^^ x.getD 3 0]

/-- The round-constant bytes used by `cn_aes_genkey`. -/
def saes_rcons (r : Nat) : Nat := [0x01, 0x02, 0x04, 0x08].getD r 0

/-- `cn_aes_genkey`: AES-256 key expansion from 8 32-bit key words to the
10 round keys (4 words each).  Round `r` appends the even key
(`sl_xor` then XOR of `RotWord(SubWord(x2[3])) ^ rcon`) and the odd key
(`sl_xor` then XOR of `SubWord(x0'[3])`). -/
def cn_aes_genkey (key : List Nat) : List (List Nat) :=
  let x0 := key.take 4
  let x2 := (key.drop 4).take 4
  let res := (List.range 4).foldl
    (fun (acc : List (List Nat) × List Nat × List Nat) r =>
      let rks := acc.1
      let a0 := acc.2.1
      let a2 := acc.2.2
      let assist := cn_rotr32 (cn_sub_word (a2.getD 3 0)) 8 ^^^ saes_rcons r
      let x0n := (sl_xor a0).map (fun w => w ^^^ assist)
      let assist2 := cn_sub_word (x0n.getD 3 0)
      let x2n := (sl_xor a2).map (fun w => w ^^^ assist2)
      (rks ++ [x0n, x2n], x0n, x2n))
    ([x0, x2], x0, x2)
  res.1

/-- A 16-byte scratchpad / cipher block as two little-endian 64-bit words. -/
def CnBlock := Nat × Nat

instance : DecidableEq CnBlock := instDecidableEqProd

instance : Inhabited CnBlock := instInhabitedProd

/-- One T-table AES encryption round (`cn_aes_round` / `cn_aes_round_to`,
which implement the same transformation in-place and out-of-place).  The
block's four 32-bit columns are `x0 = lo₃₂(lo)`, `x1 = hi₃₂(lo)`,
`x2 = lo₃₂(hi)`, `x3 = hi₃₂(hi)`. -/
def cn_aes_round_to (src : CnBlock) (key : List Nat) : CnBlock :=
  let x0 := src.1 &&& 0xFFFFFFFF
  let x1 := src.1 >>> 32
  let x2 := src.2 &&& 0xFFFFFFFF
  let x3 := src.2 >>> 32
  let y0 := saes_table 0 (x0 &&& 0xff) ^^^ saes_table 1 ((x1 >>> 8) &&& 0xff) ^^^
    saes_table 2 ((x2 >>> 16) &&& 0xff) ^^^ saes_table 3 ((x3 >>> 24) &&& 0xff) ^^^
    key.getD 0 0
  let y1 := saes_table 0 (x1 &&& 0xff) ^^^ saes_table 1 ((x2 >>> 8) &&& 0xff) ^^^
    saes_table 2 ((x3 >>> 16) &&& 0xff) ^^^ saes_table 3 ((x0 >>> 24) &&& 0xff) ^^^
    key.getD 1 0
  let y2 := saes_table 0 (x2 &&& 0xff) ^^^ saes_table 1 ((x3 >>> 8) &&& 0xff) ^^^
    saes_table 2 ((x0 >>> 16) &&& 0xff) ^^^ saes_table 3 ((x1 >>> 24) &&& 0xff) ^^^
    key.getD 2 0
  let y3 := saes_table 0 (x3 &&& 0xff) ^^^ saes_table 1 ((x0 >>> 8) &&& 0xff) ^^^
    saes_table 2 ((x1 >>> 16) &&& 0xff) ^^^ saes_table 3 ((x2 >>> 24) &&& 0xff) ^^^
    key.getD 3 0
  (y0 ||| (y1 <<< 32), y2 ||| (y3 <<< 32))

/-- `cn_aes_10rounds`: apply the 10 round keys in order. -/
def cn_aes_10rounds (rk : List (List Nat)) (b : CnBlock) : CnBlock :=
  (List.range 10).foldl (fun blk i => cn_aes_round_to blk (rk.getD i [])) b

/- ────────────────────────────────────────────────────────────────────
   GhostRider CryptoNight variant table (`gr_variants`).
   ──────────────────────────────────────────────────────────────────── -/

/-- One CryptoNight variant configuration (`cn_variant` in the C source). -/
structure CnVariant where
  memory : Nat
  iterations : Nat
  mask : Nat
  half_mem : Bool
deriving DecidableEq, Repr

instance : Inhabited CnVariant := ⟨⟨0, 0, 0, false⟩⟩

/-- The 6 GhostRider variants, values transcribed from `gr_variants`
(`CN_ITER = 0x80000`). -/
def gr_variants : List CnVariant :=
  [⟨0x80000,  0x80000 / 4, 0x7FFF0,  false⟩,
   ⟨0x80000,  0x80000 / 4, 0x3FFF0,  true⟩,
   ⟨0x200000, 0x80000 / 2, 0x1FFFF0, false⟩,
   ⟨0x100000, 0x80000 / 2, 0xFFFF0,  false⟩,
   ⟨0x40000,  0x80000 / 8, 0x3FFF0,  false⟩,
   ⟨0x40000,  0x80000 / 8, 0x1FFF0,  true⟩]

/- ────────────────────────────────────────────────────────────────────
   Mining context (`cn_ctx`) and scratchpad representation.
   ──────────────────────────────────────────────────────────────────── -/

/-- The scratchpad as a total map from 16-byte block index to block (every
scratchpad access in the C code covers a full 16-byte-aligned block). -/
def Scratchpad := Nat → CnBlock

/-- `cn_ctx`: the 200-byte state (as 25 lanes), the 128-byte saved AES
state (`save_state`, 8 blocks), the scratchpad, and the half-memory flag. -/
structure GrCtx where
  stateLanes : List Nat
  save_state : List CnBlock
  scratch : Scratchpad
  first_half : Bool

/-- 8 consecutive 32-bit words taken from 4 state lanes, starting at lane
`base` (little-endian: even word = low half).  Encodes the C code's byte
view `state + 8 * base` of 32 key bytes. -/
def laneWords (lanes : List Nat) (base : Nat) : List Nat :=
  (List.range 8).map fun w =>
    if w % 2 = 0 then lanes.getD (base + w / 2) 0 &&& 0xFFFFFFFF
    else lanes.getD (base + w / 2) 0 >>> 32

/-- State bytes 64..191 as 8 16-byte blocks (block `b` = lanes `8+2b`, `9+2b`). -/
def stateBlocks (lanes : List Nat) : List CnBlock :=
  (List.range 8).map fun b => (lanes.getD (8 + 2 * b) 0, lanes.getD (9 + 2 * b) 0)

/-- Write 8 blocks back into state bytes 64..191 (lanes 8..23). -/
def lanesWriteBlocks (lanes : List Nat) (xs : List CnBlock) : List Nat :=
  (List.range 25).map fun i =>
    if 8 ≤ i ∧ i < 24 then
      (if (i - 8) % 2 = 0 then (xs.getD ((i - 8) / 2) default).1
       else (xs.getD ((i - 8) / 2) default).2)
    else lanes.getD i 0

/-- The 200-byte state as bytes (little-endian lanes), as passed to the
finishing hash. -/
def stateBytes (lanes : List Nat) : List Nat :=
  (List.range 200).map fun i => (lanes.getD (i / 8) 0 >>> (8 * (i % 8))) &&& 0xff

/-- Point update of the scratchpad. -/
def writeBlock (s : Scratchpad) (j : Nat) (b : CnBlock) : Scratchpad :=
  fun k => if k = j then b else s k

/-- XOR of two 16-byte blocks. -/
def blockXor (a b : CnBlock) : CnBlock := (a.1 ^^^ b.1, a.2 ^^^ b.2)

/- ────────────────────────────────────────────────────────────────────
   Explode / implode, embedded from `cryptonight.c`.
   ──────────────────────────────────────────────────────────────────── -/

/-- The AES keystream of `cn_explode_scratchpad`: each iteration applies
the full 10-round cipher to all 8 working blocks and emits them.  Returns
the emitted blocks (in scratchpad order) and the final working blocks. -/
def cn_explode_stream (rk : List (List Nat)) (blocks : List CnBlock) :
    Nat → List CnBlock × List CnBlock
  | 0 => ([], blocks)
  | cnt + 1 =>
    let blocks2 := blocks.map (cn_aes_10rounds rk)
    let rest := cn_explode_stream rk blocks2 cnt
    (blocks2 ++ rest.1, rest.2)

/-- `cn_explode_scratchpad`: key from state bytes 0..31; `N` blocks to fill
(halved for half-memory variants); the 8 working blocks start from state
bytes 64..191, or from `save_state` when continuing the second half; the
loop `for (i = 0; i < N; i += 8)` runs `(N + 7) / 8` times; after a
half-memory first pass the working blocks are saved. -/
def cn_explode_scratchpad (ctx : GrCtx) (v : CnVariant) : GrCtx :=
  let rk := cn_aes_genkey (laneWords ctx.stateLanes 0)
  let N := (v.memory / 16) / (if v.half_mem then 2 else 1)
  let blocks := if v.half_mem && !ctx.first_half then ctx.save_state
    else stateBlocks ctx.stateLanes
  let r := cn_explode_stream rk blocks ((N + 7) / 8)
  let scratch2 : Scratchpad := fun j =>
    if j < 8 * ((N + 7) / 8) then r.1.getD j default else ctx.scratch j
  let ctx2 := { ctx with scratch := scratch2 }
  if v.half_mem && ctx.first_half then { ctx2 with save_state := r.2 } else ctx2

/-- One pass of `cn_implode_scratchpad`'s scan: `cnt` strides of 8 blocks
starting at stride `t`; each stride XORs the scratchpad blocks into the
working blocks and applies the full 10-round cipher to each. -/
def cn_implode_steps (rk : List (List Nat)) (s : Scratchpad) :
    Nat → Nat → List CnBlock → List CnBlock
  | _, 0, x => x
  | t, cnt + 1, x =>
    let x2 := (List.range 8).map fun b =>
      cn_aes_10rounds rk (blockXor (x.getD b default) (s (8 * t + b)))
    cn_implode_steps rk s (t + 1) cnt x2

/-- `cn_implode_scratchpad`: key from state bytes 32..63; working blocks
from state bytes 64..191; one pass over the filled region, and for
half-memory variants a second pass after re-exploding the second half
(`first_half` cleared, scan restarts at the beginning); the final working
blocks are written back to state bytes 64..191. -/
def cn_implode_scratchpad (ctx : GrCtx) (v : CnVariant) : GrCtx :=
  let rk := cn_aes_genkey (laneWords ctx.stateLanes 4)
  let N := (v.memory / 16) / (if v.half_mem then 2 else 1)
  let K := (N + 7) / 8
  let x1 := cn_implode_steps rk ctx.scratch 0 K (stateBlocks ctx.stateLanes)
  if v.half_mem then
    let ctx2 := cn_explode_scratchpad { ctx with first_half := false } v
    let x2 := cn_implode_steps rk ctx2.scratch 0 K x1
    { ctx2 with stateLanes := lanesWriteBlocks ctx2.stateLanes x2 }
  else
    { ctx with stateLanes := lanesWriteBlocks ctx.stateLanes x1 }

/- ────────────────────────────────────────────────────────────────────
   Main mixing loop, embedded from `cryptonight_hash` step 4.
   ──────────────────────────────────────────────────────────────────── -/

/-- Register state of the main loop: the two 64-bit accumulators
`al0`/`ah0`, the 128-bit mix value `bx0` (two words), the address register
`idx0`, and the scratchpad. -/
structure CnLoopState where
  al : Nat
  ah : Nat
  bxlo : Nat
  bxhi : Nat
  idx : Nat
  scratch : Scratchpad

/-- `cx = aesenc(scratchpad[idx0 & mask], key = (al0, ah0))`. -/
def cnStepCx (mask : Nat) (st : CnLoopState) : CnBlock :=
  cn_aes_round_to (st.scratch ((st.idx &&& mask) >>> 4))
    [st.al &&& 0xFFFFFFFF, st.al >>> 32, st.ah &&& 0xFFFFFFFF, st.ah >>> 32]

/-- `VARIANT1_1`: flip bits of byte 11 of the stored block, i.e. byte 3 of
the high word: `store_bytes[3] = tmp ^ ((0x75310 >> index) & 0x30)` with
`index = (((tmp >> 3) & 6) | (tmp & 1)) << 1`.  Replacing that byte by
`tmp ^ delta` equals XOR-ing `delta <<< 24` into the word. -/
def variant1_tweak_byte11 (hi : Nat) : Nat :=
  let tmp := (hi >>> 24) &&& 0xff
  let index := (((tmp >>> 3) &&& 6) ||| (tmp &&& 1)) <<< 1
  hi ^^^ (((0x75310 >>> index) &&& 0x30) <<< 24)

/-- The scratchpad after the first store of an iteration: `bx0 ^ cx` with
the `VARIANT1_1` byte tweak, written at the old address `idx0 & mask`. -/
def cnStepScratch1 (mask : Nat) (st : CnLoopState) : Scratchpad :=
  writeBlock st.scratch ((st.idx &&& mask) >>> 4)
    (st.bxlo ^^^ (cnStepCx mask st).1,
     variant1_tweak_byte11 (st.bxhi ^^^ (cnStepCx mask st).2))

/-- The new address register: the low 64 bits of `cx`. -/
def cnStepNewIdx (mask : Nat) (st : CnLoopState) : Nat := (cnStepCx mask st).1

/-- `(cl, ch)`: the fresh 16-byte block read at the new address (from the
memory as left by the first store). -/
def cnStepRead (mask : Nat) (st : CnLoopState) : CnBlock :=
  cnStepScratch1 mask st ((cnStepNewIdx mask st &&& mask) >>> 4)

/-- One iteration of the main loop (`cryptonight_hash` lines 475-533):
encrypt, store `bx ^ cx` at the old address, move to the new address, read
`(cl, ch)`, 128-bit multiply `idx0 * cl`, accumulate, store
`(al0, ah0 ^ tweak1_2)` at the new address, XOR the read halves into the
accumulators, and roll `bx0 := cx`. -/
def cnStep (mask tweak : Nat) (st : CnLoopState) : CnLoopState :=
  let cx := cnStepCx mask st
  let idx1 := cnStepNewIdx mask st
  let cl := (cnStepRead mask st).1
  let ch := (cnStepRead mask st).2
  let hi_mul := idx1 * cl / 2 ^ 64
  let lo_mul := (idx1 * cl) % 2 ^ 64
  let al1 := (st.al + hi_mul) % 2 ^ 64
  let ah1 := (st.ah + lo_mul) % 2 ^ 64
  let s2 := writeBlock (cnStepScratch1 mask st) ((idx1 &&& mask) >>> 4)
    (al1, ah1 ^^^ tweak)
  {
    al := al1 ^^^ cl
    ah := ah1 ^^^ ch
    bxlo := cx.1
    bxhi := cx.2
    idx := al1 ^^^ cl
    scratch := s2 }

/-- The main loop: `iterations` applications of `cnStep`. -/
def cnLoop (mask tweak : Nat) : Nat → CnLoopState → CnLoopState
  | 0, st => st
  | n + 1, st => cnLoop mask tweak n (cnStep mask tweak st)

/- ────────────────────────────────────────────────────────────────────
   `cryptonight_hash`, embedded from `cryptonight.c`.
   ──────────────────────────────────────────────────────────────────── -/

/-- The Monero V7 tweak: `tweak1_2 = *(uint64_t*)(input + 35) ^ state_u64[24]`,
where the state is the Keccak expansion of the engine's own input. -/
def cn_tweak (input : List Nat) : Nat :=
  load64 input 35 ^^^ (gr_keccak input).getD 24 0

/-- Steps 1-2 of `cryptonight_hash`: seed the 200-byte state from the
input via Keccak, and mark the first half pending for half-memory
variants. -/
def cn_ctx_seeded (input : List Nat) (ctx : GrCtx) (v : CnVariant) : GrCtx :=
  { ctx with
    stateLanes := gr_keccak input
    first_half := if v.half_mem then true else ctx.first_half }

/-- Steps 3-4 of `cryptonight_hash`: explode the scratchpad, then run the
main loop (`v.iterations` iterations of `cnStep` with the per-hash tweak)
starting from the accumulators seeded from state lanes 0..7; only the
scratchpad survives the loop. -/
def cn_after_loop (input : List Nat) (ctx : GrCtx) (v : CnVariant) : GrCtx :=
  let ctx2 := cn_explode_scratchpad (cn_ctx_seeded input ctx v) v
  let h := fun i => ctx2.stateLanes.getD i 0
  let st0 : CnLoopState := {
    al := h 0 ^^^ h 4
    ah := h 1 ^^^ h 5
    bxlo := h 2 ^^^ h 6
    bxhi := h 3 ^^^ h 7
    idx := h 0 ^^^ h 4
    scratch := ctx2.scratch }
  { ctx2 with scratch := (cnLoop v.mask (cn_tweak input) v.iterations st0).scratch }

/-- The valid-variant body of `cryptonight_hash` (steps 1-7 of the C
function), for the variant configuration `v`: seed, explode, main loop,
implode, final permutation, finishing hash. -/
def cryptonight_body (extra : Nat → List Nat → List Nat) (input : List Nat)
    (ctx : GrCtx) (v : CnVariant) : List Nat × GrCtx :=
  let ctx4 := cn_implode_scratchpad (cn_after_loop input ctx v) v
  let lanes2 := gr_keccakf ctx4.stateLanes 24
  (extra ((lanes2.getD 0 0) &&& 3) (stateBytes lanes2), { ctx4 with stateLanes := lanes2 })

/-- `cryptonight_hash`: the full memory-hard engine.  `extra` is the bank
of the 4 finishing hashes (blake256 / groestl / jh256 / skein256), external
to this repository, each mapping the 200-byte state to a 32-byte digest.
An out-of-range variant zeroes the output and returns without touching the
context (the C function is `void` and signals nothing). -/
def cryptonight_hash (extra : Nat → List Nat → List Nat) (input : List Nat)
    (ctx : GrCtx) (variant : Int) : List Nat × GrCtx :=
  if variant < 0 ∨ 5 < variant then (List.replicate 32 0, ctx)
  else cryptonight_body extra input ctx (gr_variants.getD variant.toNat default)

/- ────────────────────────────────────────────────────────────────────
   GhostRider pipeline, embedded from `ghostrider_ffi.c`.
   `bank` is the table of the 15 SPH-512 core hashes (external to this
   repository), addressed by index, mapping input bytes to 64 bytes.
   ──────────────────────────────────────────────────────────────────── -/

/-- The 5 chained core-hash calls of one pipeline part: hash `i` of the
part uses primitive index `ci[part * 5 + i]`, each output feeding the next
call. -/
def ghostrider_chain5 (bank : Nat → List Nat → List Nat) (ci : List Nat)
    (part : Nat) (data : List Nat) : List Nat :=
  (List.range 5).foldl (fun d i => bank (ci.getD (part * 5 + i) 0) d) data

/-- The first `parts` parts of the GhostRider pipeline.  The accumulator is
`(data, output, ctx)`: the working input of the next part, the last
CryptoNight digest, and the threaded context.  Each part chains 5 core
hashes, runs CryptoNight with variant `vi[part]`, and rebuilds `tmp` as the
32-byte digest followed by 32 zero bytes. -/
def ghostrider_pipeline (bank extra : Nat → List Nat → List Nat)
    (input : List Nat) (ctx : GrCtx) (parts : Nat) :
    List Nat × List Nat × GrCtx :=
  let seed := (input.drop 4).take 32
  let ci := select_indices 15 seed
  let vi := select_indices 6 seed
  (List.range parts).foldl
    (fun acc part =>
      let d5 := ghostrider_chain5 bank ci part acc.1
      let r := cryptonight_hash extra d5 acc.2.2 (Int.ofNat (vi.getD part 0))
      (r.1.take 32 ++ List.replicate 32 0, r.1, r.2))
    (input, [], ctx)

/-- The full 3-part GhostRider hash body (the code after the argument
checks in `ghostrider_hash`): the result is the last CryptoNight digest
and the final context. -/
def ghostrider_core (bank extra : Nat → List Nat → List Nat)
    (input : List Nat) (ctx : GrCtx) : List Nat × GrCtx :=
  let r := ghostrider_pipeline bank extra input ctx 3
  (r.2.1, r.2.2)

/-- Result of the FFI entry point: return status, output buffer contents
and context after the call (`none` models a NULL pointer). -/
structure GrCall where
  status : Int
  output : Option (List Nat)
  ctx : Option GrCtx

/-- `ghostrider_hash` FFI entry point: NULL input, NULL output, NULL
context or `input_len < 43` returns `-1` before anything is written;
otherwise the 3-part pipeline runs and returns 0. -/
def ghostrider_hash (bank extra : Nat → List Nat → List Nat)
    (input : Option (List Nat)) (outBuf : Option (List Nat))
    (ctx : Option GrCtx) : GrCall :=
  match input, outBuf, ctx with
  | some inp, some ob, some c =>
    if inp.length < 43 then ⟨-1, some ob, some c⟩
    else
      let r := ghostrider_core bank extra inp c
      ⟨0, some r.1, some r.2⟩
  | _, _, _ => ⟨-1, outBuf, ctx⟩

/- ────────────────────────────────────────────────────────────────────
   Derived definitions used by the verification.
   ──────────────────────────────────────────────────────────────────── -/

/-- The stage-shaped form of the pipeline, following the specification's
description of §4.4 stage by stage: stage 0 chains the 5 primitives
`perm15[0..5]` over the full header and hashes the result with the
memory-hard engine under variant `perm6[0]`; stage `s+1` starts from the
previous stage's 32-byte digest followed by 32 zero bytes.  The value is
`(digest of stage s, context after stage s)`. -/
def gr_stage_spec (bank extra : Nat → List Nat → List Nat)
    (header : List Nat) (ctx : GrCtx) : Nat → List Nat × GrCtx
  | 0 =>
    cryptonight_hash extra
      (ghostrider_chain5 bank (select_indices 15 ((header.drop 4).take 32)) 0 header)
      ctx
      (Int.ofNat ((select_indices 6 ((header.drop 4).take 32)).getD 0 0))
  | s + 1 =>
    let p := gr_stage_spec bank extra header ctx s
    cryptonight_hash extra
      (ghostrider_chain5 bank (select_indices 15 ((header.drop 4).take 32)) (s + 1)
        (p.1.take 32 ++ List.replicate 32 0))
      p.2
      (Int.ofNat ((select_indices 6 ((header.drop 4).take 32)).getD (s + 1) 0))

/-- The 64-byte buffer handed to the memory-hard engine in part `s` of the
pipeline: the part's 5 chained core hashes applied to the pipeline's
working data after `s` completed parts. -/
def gr_stage_data (bank extra : Nat → List Nat → List Nat)
    (header : List Nat) (ctx : GrCtx) (s : Nat) : List Nat :=
  ghostrider_chain5 bank (select_indices 15 ((header.drop 4).take 32)) s
    (ghostrider_pipeline bank extra header ctx s).1

/-- The byte offsets of the scratchpad accesses made by one main-loop
iteration: read + store at the old address `idx0 & mask`, and read + store
at the new address `(low64 cx) & mask`. -/
def cnStepOffsets (mask : Nat) (st : CnLoopState) : List Nat :=
  [st.idx &&& mask, cnStepNewIdx mask st &&& mask]

/-- Two scratchpads agree on all block indices below `R`. -/
def agreeBelow (R : Nat) (s1 s2 : Scratchpad) : Prop :=
  ∀ j, j < R → s1 j = s2 j

/-- The number of 16-byte blocks the explode phase writes for variant `v`
(the filled region; the masked main-loop and implode accesses stay inside
it). -/
def explodeR (v : CnVariant) : Nat :=
  8 * (((v.memory / 16) / (if v.half_mem then 2 else 1) + 7) / 8)

/-- A concrete all-zero context, used to instantiate theorems. -/
def grCtx0 : GrCtx :=
  { stateLanes := List.replicate 25 0
    save_state := List.replicate 8 ((0 : Nat), (0 : Nat))
    scratch := fun _ => ((0 : Nat), (0 : Nat))
    first_half := false }

/-- A concrete main-loop register state with an all-ones scratchpad, used
to instantiate theorems. -/
def cnLoopStateOnes : CnLoopState :=
  { al := 0
    ah := 0
    bxlo := 0
    bxhi := 0
    idx := 0
    scratch := fun _ => (0xFFFFFFFFFFFFFFFF, 0xFFFFFFFFFFFFFFFF) }

/-- A concrete core-hash bank returning 64 zero bytes, standing in for the
external SPH primitives in concrete instantiations. -/
def grBank0 : Nat → List Nat → List Nat := fun _ _ => List.replicate 64 0

/-- A concrete finishing-hash bank returning 32 zero bytes. -/
def grExtra0 : Nat → List Nat → List Nat := fun _ _ => List.replicate 32 0

/-- A concrete 43-byte header whose byte 35 is 1 (all other bytes 0). -/
def grHeader1 : List Nat := List.replicate 35 0 ++ 1 :: List.replicate 7 0
/-- Two main-loop states agree: equal registers and scratchpads that agree
below block index `R`. -/
def loopAgree (R : Nat) (s t : CnLoopState) : Prop :=
  s.al = t.al ∧ s.ah = t.ah ∧ s.bxlo = t.bxlo ∧ s.bxhi = t.bxhi ∧
  s.idx = t.idx ∧ agreeBelow R s.scratch t.scratch

/-- The nibble-scan loop preserves: no duplicates, all entries below `n`,
and it only ever appends to its accumulator. -/
theorem select_loop_inv (n : Nat) (seed : List Nat) (hn : 0 < n) :
    ∀ (k i : Nat), 64 - i ≤ k → ∀ (acc : List Nat), acc.Nodup → (∀ x ∈ acc, x < n) →
      (select_loop n seed i acc).Nodup ∧
      (∀ x ∈ select_loop n seed i acc, x < n) ∧
      (∀ x ∈ acc, x ∈ select_loop n seed i acc) := by
  intro k
  induction k with
  | zero =>
    intro i hi acc hnd hlt
    rw [select_loop.eq_def]
    have : ¬ (i < 64 ∧ acc.length < n) := by omega
    rw [dif_neg this]
    exact ⟨hnd, hlt, fun x hx => hx⟩
  | succ k ih =>
    intro i hi acc hnd hlt
    rw [select_loop.eq_def]
    by_cases h : i < 64 ∧ acc.length < n
    · rw [dif_pos h]
      have hm : seed_nibble seed i % n < n := Nat.mod_lt _ hn
      by_cases hmem : seed_nibble seed i % n ∈ acc
      · rw [if_pos hmem]
        exact ih (i + 1) (by omega) acc hnd hlt
      · rw [if_neg hmem]
        have hnd2 : (acc ++ [seed_nibble seed i % n]).Nodup := by
          simp [List.nodup_append, hnd, hmem]
        have hlt2 : ∀ x ∈ acc ++ [seed_nibble seed i % n], x < n := by
          intro x hx
          rcases List.mem_append.mp hx with hx | hx
          · exact hlt x hx
          · simp at hx; omega
        obtain ⟨a, b, c⟩ := ih (i + 1) (by omega) _ hnd2 hlt2
        exact ⟨a, b, fun x hx => c x (List.mem_append.mpr (Or.inl hx))⟩
    · rw [dif_neg h]
      exact ⟨hnd, hlt, fun x hx => hx⟩

/-- C2: for `n = 15` and `n = 6` and every 32-byte seed, `select_indices`
returns a permutation of `0 .. n-1`: every index appears exactly once,
whatever the seed bytes are. -/
theorem select_indices_perm (n : Nat) (seed : List Nat)
    (hn : n = 15 ∨ n = 6) (hseed : seed.length = 32) :
    (select_indices n seed).Perm (List.range n) := by
  have hpos : 0 < n := by rcases hn with h | h <;> omega
  obtain ⟨hnd, hlt, _⟩ :=
    select_loop_inv n seed hpos 64 0 (by omega) [] List.nodup_nil (by simp)
  unfold select_indices
  set sel := select_loop n seed 0 [] with hsel
  have hfnd : ((List.range n).filter (fun j => decide (j ∉ sel))).Nodup :=
    (List.nodup_range n).filter _
  have hdisj : sel.Disjoint ((List.range n).filter (fun j => decide (j ∉ sel))) := by
    intro x hx hxf
    have := (List.mem_filter.mp hxf).2
    simp at this
    exact this hx
  have hndall : (sel ++ (List.range n).filter (fun j => decide (j ∉ sel))).Nodup :=
    List.Nodup.append hnd hfnd hdisj
  refine (List.perm_ext_iff_of_nodup hndall (List.nodup_range n)).mpr ?_
  intro a
  simp only [List.mem_append, List.mem_filter, List.mem_range, decide_eq_true_eq]
  constructor
  · rintro (h | ⟨h, _⟩)
    · exact hlt a h
    · exact h
  · intro h
    by_cases hmem : a ∈ sel
    · exact Or.inl hmem
    · exact Or.inr ⟨h, by simpa using hmem⟩

/-- Witness for C2 at a concrete input: the all-zero 32-byte seed with `n = 15`. -/
theorem select_indices_perm_witness :
    ((15 : Nat) = 15 ∨ (15 : Nat) = 6) ∧ (List.replicate 32 0).length = 32 ∧
      (select_indices 15 (List.replicate 32 0)).Perm (List.range 15) :=
  ⟨Or.inl rfl, by simp,
    select_indices_perm 15 (List.replicate 32 0) (Or.inl rfl) (by simp)⟩


/- ────────────────────────────────────────────────────────────────────
   C10: failed argument checks are fully atomic.
   ──────────────────────────────────────────────────────────────────── -/

/-- C10: calling `ghostrider_hash` with a NULL input pointer, NULL output
pointer, NULL context, or an input shorter than 43 bytes returns status
`-1`, writes no byte of the output buffer, and modifies no field of the
context: the argument check precedes every write. -/
theorem ghostrider_hash_error_atomic (bank extra : Nat → List Nat → List Nat)
    (input outBuf : Option (List Nat)) (ctx : Option GrCtx)
    (h : input = none ∨ outBuf = none ∨ ctx = none ∨
      ∃ inp, input = some inp ∧ inp.length < 43) :
    ghostrider_hash bank extra input outBuf ctx =
      { status := -1, output := outBuf, ctx := ctx } := by
  rcases input with _ | inp
  · rfl
  rcases outBuf with _ | ob
  · rfl
  rcases ctx with _ | c
  · rfl
  rcases h with h | h | h | ⟨inp2, he, hl⟩
  · exact absurd h (by simp)
  · exact absurd h (by simp)
  · exact absurd h (by simp)
  · obtain rfl : inp = inp2 := by injection he
    simp [ghostrider_hash, hl]

/-- Witness for C10: NULL input with concrete other arguments. -/
theorem ghostrider_hash_error_atomic_witness :
    ((none : Option (List Nat)) = none ∨ (some ([] : List Nat)) = none ∨
      (some grCtx0) = none ∨ ∃ inp, (none : Option (List Nat)) = some inp ∧ inp.length < 43) ∧
    ghostrider_hash grBank0 grExtra0 none (some []) (some grCtx0) =
      { status := -1, output := some [], ctx := some grCtx0 } :=
  ⟨Or.inl rfl,
    ghostrider_hash_error_atomic grBank0 grExtra0 none (some []) (some grCtx0) (Or.inl rfl)⟩

/- ────────────────────────────────────────────────────────────────────
   C4: behaviour on an out-of-range variant index.
   ──────────────────────────────────────────────────────────────────── -/

/-- C4 counterexample: `cryptonight_hash` invoked with variant 6 does not
return any typed error to its caller — the C function is `void`; it
overwrites the 32-byte output buffer with zero bytes and returns, leaving
the caller with an ordinary-looking digest buffer and no error signal. -/
theorem cryptonight_invalid_variant_counterexample :
    cryptonight_hash grExtra0 (List.replicate 64 0) grCtx0 6 =
      (List.replicate 32 0, grCtx0) := by
  unfold cryptonight_hash
  rw [if_pos (Or.inr (by norm_num))]

/-- C4 (amended): on a variant index outside `0..5` the engine refuses to
hash and does not clamp the index, but instead of returning a typed error
it zeroes the 32-byte output and returns with the context unmodified. -/
theorem cryptonight_invalid_variant (extra : Nat → List Nat → List Nat)
    (input : List Nat) (ctx : GrCtx) (variant : Int)
    (h : variant < 0 ∨ 5 < variant) :
    cryptonight_hash extra input ctx variant = (List.replicate 32 0, ctx) := by
  unfold cryptonight_hash
  rw [if_pos h]

/-- Witness for the amended C4 at variant 6. -/
theorem cryptonight_invalid_variant_witness :
    ((6 : Int) < 0 ∨ (5 : Int) < 6) ∧
    cryptonight_hash grExtra0 [] grCtx0 6 = (List.replicate 32 0, grCtx0) :=
  ⟨Or.inr (by norm_num), cryptonight_invalid_variant grExtra0 [] grCtx0 6 (Or.inr (by norm_num))⟩

/- ────────────────────────────────────────────────────────────────────
   C3: all main-loop scratchpad accesses are masked into bounds.
   ──────────────────────────────────────────────────────────────────── -/

/-- Masking with an address mask whose low 4 bits are clear yields a
16-byte-aligned offset. -/
theorem and_mask_mod16 {m : Nat} (hm : m &&& 15 = 0) (a : Nat) :
    (a &&& m) % 16 = 0 := by
  have h1 : (a &&& m) &&& 15 = 0 := by rw [Nat.and_assoc, hm, Nat.and_zero]
  have h2 := Nat.and_pow_two_sub_one_eq_mod (a &&& m) 4
  norm_num at h2
  rw [← h2]
  exact h1

/-- C3: for every variant of the table and every register state, each
scratchpad offset touched by a main-loop iteration (read and store at the
old address, read and store at the new address — all of the form
`address &&& mask`) is 16-byte aligned and ends at or before
`variant.memory`, so no access leaves `[0, variant.bytes)`. -/
theorem cn_loop_access_bounds (v : CnVariant) (hv : v ∈ gr_variants)
    (st : CnLoopState) (o : Nat) (ho : o ∈ cnStepOffsets v.mask st) :
    o % 16 = 0 ∧ o + 16 ≤ v.memory := by
  have hm : v.mask &&& 15 = 0 ∧ v.mask + 16 ≤ v.memory := by
    simp only [gr_variants, List.mem_cons, List.not_mem_nil, or_false] at hv
    rcases hv with rfl | rfl | rfl | rfl | rfl | rfl <;> exact ⟨by decide, by decide⟩
  have key : ∀ a, (a &&& v.mask) % 16 = 0 ∧ (a &&& v.mask) + 16 ≤ v.memory :=
    fun a => ⟨and_mask_mod16 hm.1 a,
      le_trans (Nat.add_le_add_right Nat.and_le_right 16) hm.2⟩
  simp only [cnStepOffsets, List.mem_cons, List.not_mem_nil, or_false] at ho
  rcases ho with rfl | rfl
  · exact key _
  · exact key _

/-- Witness for C3: variant 0 at a concrete register state, for the
old-address offset. -/
theorem cn_loop_access_bounds_witness :
    (⟨0x80000, 0x80000 / 4, 0x7FFF0, false⟩ : CnVariant) ∈ gr_variants ∧
    (cnLoopStateOnes.idx &&& 0x7FFF0) ∈ cnStepOffsets 0x7FFF0 cnLoopStateOnes ∧
    ((cnLoopStateOnes.idx &&& 0x7FFF0) % 16 = 0 ∧
      (cnLoopStateOnes.idx &&& 0x7FFF0) + 16 ≤ 0x80000) :=
  ⟨by decide, by simp [cnStepOffsets],
    cn_loop_access_bounds ⟨0x80000, 0x80000 / 4, 0x7FFF0, false⟩ (by decide)
      cnLoopStateOnes (cnLoopStateOnes.idx &&& 0x7FFF0) (by simp [cnStepOffsets])⟩

/- ────────────────────────────────────────────────────────────────────
   C9: the multiply-and-store of a main-loop iteration.
   ──────────────────────────────────────────────────────────────────── -/

/-- C9 counterexample: the claim would make the 128-bit product use the
iteration's low accumulator `al0`.  At a concrete register state with
`al0 = ah0 = 0` and an all-ones scratchpad the claimed stored pair is
`(0, 0)`, but the code multiplies the *new address register* (the low 64
bits of the cipher output) by `cl` and stores a nonzero pair. -/
theorem cn_step_mul_store_counterexample :
    ¬ ((cnStep 0x7FFF0 0 cnLoopStateOnes).scratch
        ((cnStepNewIdx 0x7FFF0 cnLoopStateOnes &&& 0x7FFF0) >>> 4) =
      ((cnLoopStateOnes.al +
          cnLoopStateOnes.al * (cnStepRead 0x7FFF0 cnLoopStateOnes).1 / 2 ^ 64) % 2 ^ 64,
        ((cnLoopStateOnes.ah +
          cnLoopStateOnes.al * (cnStepRead 0x7FFF0 cnLoopStateOnes).1 % 2 ^ 64) % 2 ^ 64) ^^^ 0)) := by
  decide

/-- C9 (amended): in every iteration, after reading `(cl, ch)` at the new
address, the engine forms the full 128-bit product of the *new address
register* (the low 64 bits of the cipher output, not the low accumulator)
with `cl`, adds the high half into the low accumulator and the low half
into the high accumulator, and stores that pair at the same new address
with the stored high half XOR-ed with the per-hash tweak. -/
theorem cn_step_mul_store (mask tweak : Nat) (st : CnLoopState) :
    (cnStep mask tweak st).scratch ((cnStepNewIdx mask st &&& mask) >>> 4) =
      ((st.al + cnStepNewIdx mask st * (cnStepRead mask st).1 / 2 ^ 64) % 2 ^ 64,
        ((st.ah + cnStepNewIdx mask st * (cnStepRead mask st).1 % 2 ^ 64) % 2 ^ 64) ^^^ tweak) := by
  simp [cnStep, writeBlock]

/- ────────────────────────────────────────────────────────────────────
   C7: half-memory explode continuation.
   ──────────────────────────────────────────────────────────────────── -/

/-- Splitting the explode keystream: running `m + n` iterations emits the
`m`-iteration stream followed by the `n`-iteration stream continued from
the saved working blocks, and ends in the same final blocks. -/
theorem cn_explode_stream_split (rk : List (List Nat)) (b : List CnBlock)
    (m n : Nat) :
    (cn_explode_stream rk b (m + n)).1 =
      (cn_explode_stream rk b m).1 ++
        (cn_explode_stream rk (cn_explode_stream rk b m).2 n).1 ∧
    (cn_explode_stream rk b (m + n)).2 =
      (cn_explode_stream rk (cn_explode_stream rk b m).2 n).2 := by
  induction m generalizing b with
  | zero => simp [cn_explode_stream]
  | succ m ih =>
    have hadd : m + 1 + n = (m + n) + 1 := by omega
    rw [hadd]
    simp only [cn_explode_stream]
    obtain ⟨h1, h2⟩ := ih (b.map (cn_aes_10rounds rk))
    exact ⟨by rw [h1, List.append_assoc], h2⟩

/-- The explode keystream emits `cnt * blocks.length` blocks. -/
theorem cn_explode_stream_length (rk : List (List Nat)) :
    ∀ (cnt : Nat) (b : List CnBlock),
      (cn_explode_stream rk b cnt).1.length = cnt * b.length := by
  intro cnt
  induction cnt with
  | zero => intro b; simp [cn_explode_stream]
  | succ cnt ih =>
    intro b
    simp [cn_explode_stream, ih (b.map (cn_aes_10rounds rk))]
    ring

/-- C7: for a half-memory variant, the first explode pass followed by the
mid-implode re-explode (which restarts the keystream from the saved
128-byte block state) reproduces exactly what one explode of twice the
iteration count would emit from the same initial blocks and key schedule:
the first pass is its first half and the re-explode is its second half. -/
theorem half_mem_explode_consistent (ctx : GrCtx) (v : CnVariant)
    (hhalf : v.half_mem = true) (hfirst : ctx.first_half = true) :
    (∀ j, j < 8 * (((v.memory / 16) / 2 + 7) / 8) →
      (cn_explode_scratchpad ctx v).scratch j =
        ((cn_explode_stream (cn_aes_genkey (laneWords ctx.stateLanes 0))
          (stateBlocks ctx.stateLanes)
          ((((v.memory / 16) / 2 + 7) / 8) + (((v.memory / 16) / 2 + 7) / 8))).1).getD j default) ∧
    (∀ j, j < 8 * (((v.memory / 16) / 2 + 7) / 8) →
      (cn_explode_scratchpad
          { cn_explode_scratchpad ctx v with first_half := false } v).scratch j =
        ((cn_explode_stream (cn_aes_genkey (laneWords ctx.stateLanes 0))
          (stateBlocks ctx.stateLanes)
          ((((v.memory / 16) / 2 + 7) / 8) + (((v.memory / 16) / 2 + 7) / 8))).1).getD
            (8 * (((v.memory / 16) / 2 + 7) / 8) + j) default) := by
  set rk := cn_aes_genkey (laneWords ctx.stateLanes 0) with hrk
  set b0 := stateBlocks ctx.stateLanes with hb0
  set K := (((v.memory / 16) / 2 + 7) / 8) with hK
  obtain ⟨hsplit, _⟩ := cn_explode_stream_split rk b0 K K
  have hlen1 : (cn_explode_stream rk b0 K).1.length = 8 * K := by
    rw [cn_explode_stream_length]
    simp [hb0, stateBlocks]
    ring
  -- the first explode pass
  have hc1 : cn_explode_scratchpad ctx v =
      { ctx with
        scratch := fun j => if j < 8 * K then (cn_explode_stream rk b0 K).1.getD j default
          else ctx.scratch j
        save_state := (cn_explode_stream rk b0 K).2 } := by
    unfold cn_explode_scratchpad
    rw [hhalf, hfirst]
    simp [hK]
  have hc2 : cn_explode_scratchpad
      { cn_explode_scratchpad ctx v with first_half := false } v =
      { cn_explode_scratchpad ctx v with
        first_half := false
        scratch := fun j =>
          if j < 8 * K then
            (cn_explode_stream rk (cn_explode_stream rk b0 K).2 K).1.getD j default
          else (cn_explode_scratchpad ctx v).scratch j } := by
    rw [hc1]
    unfold cn_explode_scratchpad
    rw [hhalf]
    simp [hK]
  constructor
  · intro j hj
    rw [hc1]
    simp only [hj, if_pos]
    rw [hsplit, List.getD_append _ _ _ _ (by omega)]
  · intro j hj
    rw [hc2]
    simp only [hj, if_pos]
    rw [hsplit]
    rw [List.getD_append_right _ _ _ _ (by omega)]
    congr 1
    omega

/-- Witness for C7 at a concrete half-memory setup (variant 5 parameters,
all-zero state, first half pending). -/
theorem half_mem_explode_consistent_witness :
    (⟨0x40000, 0x80000 / 8, 0x1FFF0, true⟩ : CnVariant).half_mem = true ∧
    ({ grCtx0 with first_half := true } : GrCtx).first_half = true ∧
    (∀ j, j < 8 * ((((⟨0x40000, 0x80000 / 8, 0x1FFF0, true⟩ : CnVariant).memory / 16) / 2 + 7) / 8) →
      (cn_explode_scratchpad { grCtx0 with first_half := true }
          ⟨0x40000, 0x80000 / 8, 0x1FFF0, true⟩).scratch j =
        ((cn_explode_stream
          (cn_aes_genkey (laneWords ({ grCtx0 with first_half := true } : GrCtx).stateLanes 0))
          (stateBlocks ({ grCtx0 with first_half := true } : GrCtx).stateLanes)
          (((((⟨0x40000, 0x80000 / 8, 0x1FFF0, true⟩ : CnVariant).memory / 16) / 2 + 7) / 8) +
            ((((⟨0x40000, 0x80000 / 8, 0x1FFF0, true⟩ : CnVariant).memory / 16) / 2 + 7) / 8))).1).getD
          j default) := by
  refine ⟨rfl, rfl, ?_⟩
  exact (half_mem_explode_consistent { grCtx0 with first_half := true }
    ⟨0x40000, 0x80000 / 8, 0x1FFF0, true⟩ rfl rfl).1

/- ────────────────────────────────────────────────────────────────────
   C5: derivation of the per-hash tweak.
   ──────────────────────────────────────────────────────────────────── -/

/-- C5 counterexample: the tweak of the stage-0 engine invocation is *not*
derived from the header.  With a core-hash bank returning all-zero buffers
and a header whose byte 35 is 1, the engine's input (the pipeline buffer
after 5 core hashes) has byte 35 = 0, so the tweak the engine computes
differs from the header-derived value claimed. -/
theorem gr_stage_tweak_counterexample :
    ¬ (cn_tweak (gr_stage_data grBank0 grExtra0 grHeader1 grCtx0 0) =
      load64 grHeader1 35 ^^^
        (gr_keccak (gr_stage_data grBank0 grExtra0 grHeader1 grCtx0 0)).getD 24 0) := by
  have hd : gr_stage_data grBank0 grExtra0 grHeader1 grCtx0 0 = List.replicate 64 0 := rfl
  rw [hd]
  unfold cn_tweak
  have h0 : load64 (List.replicate 64 0) 35 = 0 := by decide
  have h1 : load64 grHeader1 35 = 1 := by decide
  rw [h0, h1, Nat.zero_xor]
  intro hcontra
  have h2 : ((gr_keccak (List.replicate 64 0)).getD 24 0) ^^^
        ((gr_keccak (List.replicate 64 0)).getD 24 0) =
      (1 ^^^ (gr_keccak (List.replicate 64 0)).getD 24 0) ^^^
        ((gr_keccak (List.replicate 64 0)).getD 24 0) := by
    rw [← hcontra]
  rw [Nat.xor_self, Nat.xor_assoc, Nat.xor_self, Nat.xor_zero] at h2
  exact absurd h2.symm (by norm_num)

/-- C5 (amended): part `s` of the pipeline feeds the memory-hard engine the
64-byte stage buffer `gr_stage_data` (the chained core-hash output), and
the 64-bit tweak of that invocation equals the 8 bytes at offset 35 *of
that stage buffer* (not of the header) XOR-ed with lane 24 of the state
freshly Keccak-seeded from that same buffer. -/
theorem gr_stage_tweak (bank extra : Nat → List Nat → List Nat)
    (header : List Nat) (ctx : GrCtx) (s : Nat)
    (hlen : 43 ≤ header.length) (hs : s < 3) :
    (ghostrider_pipeline bank extra header ctx (s + 1)).2.1 =
      (cryptonight_hash extra (gr_stage_data bank extra header ctx s)
        (ghostrider_pipeline bank extra header ctx s).2.2
        (Int.ofNat ((select_indices 6 ((header.drop 4).take 32)).getD s 0))).1 ∧
    cn_tweak (gr_stage_data bank extra header ctx s) =
      load64 (gr_stage_data bank extra header ctx s) 35 ^^^
        (gr_keccak (gr_stage_data bank extra header ctx s)).getD 24 0 := by
  constructor
  · simp only [ghostrider_pipeline, List.range_succ, List.foldl_append,
      List.foldl_cons, List.foldl_nil, gr_stage_data]
  · rfl

/-- Witness for the amended C5 at stage 0 with concrete banks and header. -/
theorem gr_stage_tweak_witness :
    43 ≤ grHeader1.length ∧ (0 : Nat) < 3 ∧
    cn_tweak (gr_stage_data grBank0 grExtra0 grHeader1 grCtx0 0) =
      load64 (gr_stage_data grBank0 grExtra0 grHeader1 grCtx0 0) 35 ^^^
        (gr_keccak (gr_stage_data grBank0 grExtra0 grHeader1 grCtx0 0)).getD 24 0 :=
  ⟨by decide, by decide,
    (gr_stage_tweak grBank0 grExtra0 grHeader1 grCtx0 0 (by decide) (by decide)).2⟩

/- ────────────────────────────────────────────────────────────────────
   C8: minimum-length boundary.
   ──────────────────────────────────────────────────────────────────── -/

/-- `cryptonight_hash` always produces a 32-byte buffer (zero fill on an
invalid variant, a finishing-hash digest otherwise). -/
theorem cryptonight_output_length (extra : Nat → List Nat → List Nat)
    (hex : ∀ i d, (extra i d).length = 32)
    (input : List Nat) (ctx : GrCtx) (variant : Int) :
    ((cryptonight_hash extra input ctx variant).1).length = 32 := by
  unfold cryptonight_hash
  split
  · simp
  · simp [cryptonight_body, hex]

/-- A non-empty pipeline run ends with a CryptoNight digest, hence a
32-byte output. -/
theorem pipeline_out_length (bank extra : Nat → List Nat → List Nat)
    (hex : ∀ i d, (extra i d).length = 32)
    (inp : List Nat) (c : GrCtx) (parts : Nat) (hp : 0 < parts) :
    ((ghostrider_pipeline bank extra inp c parts).2.1).length = 32 := by
  cases parts with
  | zero => omega
  | succ p =>
    simp only [ghostrider_pipeline, List.range_succ, List.foldl_append,
      List.foldl_cons, List.foldl_nil]
    exact cryptonight_output_length extra hex _ _ _

/-- C8: with non-null buffers and context, an input of exactly 43 bytes
succeeds — status 0 and a 32-byte digest is written — while every shorter
input (in particular 42 bytes) fails with the `InvalidInput` status `-1`. -/
theorem ghostrider_min_length (bank extra : Nat → List Nat → List Nat)
    (inp ob : List Nat) (c : GrCtx)
    (hex : ∀ i d, (extra i d).length = 32) (h43 : inp.length = 43) :
    (ghostrider_hash bank extra (some inp) (some ob) (some c)).status = 0 ∧
    (∃ out, (ghostrider_hash bank extra (some inp) (some ob) (some c)).output = some out ∧
      out.length = 32) ∧
    ∀ (inp2 : List Nat), inp2.length < 43 →
      (ghostrider_hash bank extra (some inp2) (some ob) (some c)).status = -1 := by
  refine ⟨?_, ?_, ?_⟩
  · simp [ghostrider_hash, h43]
  · refine ⟨(ghostrider_core bank extra inp c).1, ?_, ?_⟩
    · simp [ghostrider_hash, h43]
    · exact pipeline_out_length bank extra hex inp c 3 (by omega)
  · intro inp2 hl
    simp [ghostrider_hash, hl]

/-- Witness for C8: a 43-byte all-zero input with concrete banks. -/
theorem ghostrider_min_length_witness :
    (∀ i d, (grExtra0 i d).length = 32) ∧ (List.replicate 43 (0 : Nat)).length = 43 ∧
    ((ghostrider_hash grBank0 grExtra0 (some (List.replicate 43 0)) (some []) (some grCtx0)).status = 0 ∧
      (∃ out, (ghostrider_hash grBank0 grExtra0 (some (List.replicate 43 0)) (some [])
          (some grCtx0)).output = some out ∧ out.length = 32) ∧
      ∀ (inp2 : List Nat), inp2.length < 43 →
        (ghostrider_hash grBank0 grExtra0 (some inp2) (some []) (some grCtx0)).status = -1) :=
  ⟨fun _ _ => by simp [grExtra0], by simp,
    ghostrider_min_length grBank0 grExtra0 (List.replicate 43 0) [] grCtx0
      (fun _ _ => by simp [grExtra0]) (by simp)⟩

/- ────────────────────────────────────────────────────────────────────
   C1: the 3-stage pipeline structure.
   ──────────────────────────────────────────────────────────────────── -/

/-- C1: for every input of at least 43 bytes, `ghostrider_hash`'s body
equals the 3-stage composition described by the specification: stage `s`
chains the 5 core hashes with indices `perm15[5s..5s+5]` (permutations
derived from seed = input bytes 4..36) over the current buffer — the full
header for stage 0 — then hashes the result with the memory-hard engine
under variant `perm6[s]`; stages 1 and 2 start from the previous 32-byte
digest followed by 32 zero bytes, and the final output is stage 2's
engine digest. -/
theorem ghostrider_three_stages (bank extra : Nat → List Nat → List Nat)
    (input : List Nat) (ctx : GrCtx) (hlen : 43 ≤ input.length) :
    ghostrider_core bank extra input ctx = gr_stage_spec bank extra input ctx 2 := by
  simp only [ghostrider_core, ghostrider_pipeline, gr_stage_spec,
    List.range_succ, List.range_zero, List.nil_append, List.foldl_append,
    List.foldl_cons, List.foldl_nil]

/-- Witness for C1 with concrete banks, header and context. -/
theorem ghostrider_three_stages_witness :
    43 ≤ grHeader1.length ∧
    ghostrider_core grBank0 grExtra0 grHeader1 grCtx0 =
      gr_stage_spec grBank0 grExtra0 grHeader1 grCtx0 2 :=
  ⟨by decide, ghostrider_three_stages grBank0 grExtra0 grHeader1 grCtx0 (by decide)⟩

/- ────────────────────────────────────────────────────────────────────
   C6: the output depends only on the input (context independence).
   ──────────────────────────────────────────────────────────────────── -/

/-- Every variant's address mask stays inside the region the explode phase
fills (`memory` bytes, or `memory / 2` for half-memory variants). -/
theorem variant_mask_bound : ∀ v ∈ gr_variants, v.mask + 16 ≤ 16 * explodeR v := by
  decide

/-- Looking up any of the 6 valid variant indices lands in the table. -/
theorem variant_getD_mem : ∀ t : Nat, t < 6 → gr_variants.getD t default ∈ gr_variants := by
  decide

/-- A masked address, divided into a block index, stays below `R` whenever
`mask + 16 ≤ 16 * R`. -/
theorem maskBlock_lt {mask R : Nat} (h : mask + 16 ≤ 16 * R) (a : Nat) :
    (a &&& mask) >>> 4 < R := by
  have h1 : a &&& mask ≤ mask := Nat.and_le_right
  have e : (2 : Nat) ^ 4 = 16 := by norm_num
  have h2 : (a &&& mask) >>> 4 ≤ mask >>> 4 := by
    simp only [Nat.shiftRight_eq_div_pow, e]
    exact Nat.div_le_div_right h1
  have h3 : mask >>> 4 < R := by
    simp only [Nat.shiftRight_eq_div_pow, e]
    exact (Nat.div_lt_iff_lt_mul (by norm_num)).mpr (by omega)
  omega

/-- One main-loop iteration preserves register equality and scratchpad
agreement below the filled region, provided the mask confines all accesses
to it. -/
theorem cnStep_agree {mask tweak R : Nat} (hm : mask + 16 ≤ 16 * R)
    {s1 s2 : CnLoopState} (hag : loopAgree R s1 s2) :
    loopAgree R (cnStep mask tweak s1) (cnStep mask tweak s2) := by
  obtain ⟨hal, hah, hbl, hbh, hidx, hs⟩ := hag
  have hcx : cnStepCx mask s1 = cnStepCx mask s2 := by
    unfold cnStepCx
    rw [hal, hah, hidx, hs _ (maskBlock_lt hm _)]
  have hs1 : agreeBelow R (cnStepScratch1 mask s1) (cnStepScratch1 mask s2) := by
    intro j hj
    unfold cnStepScratch1 writeBlock
    rw [hcx, hidx, hbl, hbh]
    by_cases hje : j = (s2.idx &&& mask) >>> 4
    · simp [hje]
    · simp [hje, hs j hj]
  have hni : cnStepNewIdx mask s1 = cnStepNewIdx mask s2 := by
    unfold cnStepNewIdx
    rw [hcx]
  have hrd : cnStepRead mask s1 = cnStepRead mask s2 := by
    unfold cnStepRead
    rw [hni]
    exact hs1 _ (maskBlock_lt hm _)
  refine ⟨?_, ?_, ?_, ?_, ?_, ?_⟩
  · simp only [cnStep]
    rw [hal, hni, hrd]
  · simp only [cnStep]
    rw [hah, hni, hrd]
  · simp only [cnStep]
    rw [hcx]
  · simp only [cnStep]
    rw [hcx]
  · simp only [cnStep]
    rw [hal, hni, hrd]
  · intro j hj
    simp only [cnStep, writeBlock]
    rw [hal, hah, hni, hrd]
    by_cases hje : j = (cnStepNewIdx mask s2 &&& mask) >>> 4
    · simp [hje]
    · simp only [hje, if_neg, ite_false]
      exact hs1 j hj

/-- The whole main loop preserves the agreement invariant. -/
theorem cnLoop_agree {mask tweak R : Nat} (hm : mask + 16 ≤ 16 * R) :
    ∀ (n : Nat) {s1 s2 : CnLoopState}, loopAgree R s1 s2 →
      loopAgree R (cnLoop mask tweak n s1) (cnLoop mask tweak n s2) := by
  intro n
  induction n with
  | zero => intro s1 s2 h; exact h
  | succ n ih =>
    intro s1 s2 h
    exact ih (cnStep_agree hm h)

/-- The scratchpad left by the explode phase: fresh keystream content on
the filled region, the old contents elsewhere. -/
theorem explode_scratch_eq (c : GrCtx) (v : CnVariant) :
    (cn_explode_scratchpad c v).scratch = fun j =>
      if j < explodeR v then
        (cn_explode_stream (cn_aes_genkey (laneWords c.stateLanes 0))
          (if v.half_mem && !c.first_half then c.save_state else stateBlocks c.stateLanes)
          (((v.memory / 16) / (if v.half_mem then 2 else 1) + 7) / 8)).1.getD j default
      else c.scratch j := by
  by_cases h : (v.half_mem && c.first_half) = true <;>
    simp [cn_explode_scratchpad, explodeR, h]

/-- The saved AES state left by the explode phase. -/
theorem explode_save_eq (c : GrCtx) (v : CnVariant) :
    (cn_explode_scratchpad c v).save_state =
      if v.half_mem && c.first_half then
        (cn_explode_stream (cn_aes_genkey (laneWords c.stateLanes 0))
          (if v.half_mem && !c.first_half then c.save_state else stateBlocks c.stateLanes)
          (((v.memory / 16) / (if v.half_mem then 2 else 1) + 7) / 8)).2
      else c.save_state := by
  by_cases h : (v.half_mem && c.first_half) = true <;>
    simp [cn_explode_scratchpad, h]

/-- The explode phase does not change the state lanes. -/
theorem explode_lanes_eq (c : GrCtx) (v : CnVariant) :
    (cn_explode_scratchpad c v).stateLanes = c.stateLanes := by
  by_cases h : (v.half_mem && c.first_half) = true <;>
    simp [cn_explode_scratchpad, h]

/-- The explode phase does not change the half-memory flag. -/
theorem explode_first_eq (c : GrCtx) (v : CnVariant) :
    (cn_explode_scratchpad c v).first_half = c.first_half := by
  by_cases h : (v.half_mem && c.first_half) = true <;>
    simp [cn_explode_scratchpad, h]

/-- One implode scan produces equal working blocks from scratchpads that
agree on the scanned region. -/
theorem implode_steps_eq (rk : List (List Nat)) {s1 s2 : Scratchpad} {R : Nat}
    (hs : agreeBelow R s1 s2) :
    ∀ (cnt t : Nat) (x : List CnBlock), 8 * (t + cnt) ≤ R →
      cn_implode_steps rk s1 t cnt x = cn_implode_steps rk s2 t cnt x := by
  intro cnt
  induction cnt with
  | zero => intro t x hb; rfl
  | succ cnt ih =>
    intro t x hb
    simp only [cn_implode_steps]
    have hx2 : (List.range 8).map (fun b =>
        cn_aes_10rounds rk (blockXor (x.getD b default) (s1 (8 * t + b)))) =
      (List.range 8).map (fun b =>
        cn_aes_10rounds rk (blockXor (x.getD b default) (s2 (8 * t + b)))) := by
      apply List.map_congr_left
      intro b hb2
      simp only [List.mem_range] at hb2
      rw [hs (8 * t + b) (by omega)]
    rw [hx2]
    exact ih (t + 1) _ (by omega)

/-- The implode phase writes the same state lanes for two contexts with
equal lanes, scratchpads that agree on the filled region, and (for
half-memory variants) equal saved AES states. -/
theorem implode_lanes_eq2 (v : CnVariant) (c1 c2 : GrCtx)
    (hL : c1.stateLanes = c2.stateLanes)
    (hagree : agreeBelow (explodeR v) c1.scratch c2.scratch)
    (hsave : v.half_mem = true → c1.save_state = c2.save_state) :
    (cn_implode_scratchpad c1 v).stateLanes =
      (cn_implode_scratchpad c2 v).stateLanes := by
  cases hm : v.half_mem with
  | false =>
    have hKb : 8 * (0 + ((v.memory / 16 / 1 + 7) / 8)) ≤ explodeR v := by
      simp only [explodeR, hm, Bool.false_eq_true, if_false]
      omega
    have hx1 := implode_steps_eq (cn_aes_genkey (laneWords c2.stateLanes 4)) hagree
      ((v.memory / 16 / 1 + 7) / 8) 0 (stateBlocks c2.stateLanes) hKb
    simp only [cn_implode_scratchpad, hm, Bool.false_eq_true, if_false, hL]
    rw [hx1]
  | true =>
    have hKb : 8 * (0 + ((v.memory / 16 / 2 + 7) / 8)) ≤ explodeR v := by
      simp only [explodeR, hm, if_true]
      omega
    have hx1 := implode_steps_eq (cn_aes_genkey (laneWords c2.stateLanes 4)) hagree
      ((v.memory / 16 / 2 + 7) / 8) 0 (stateBlocks c2.stateLanes) hKb
    have hagree2 : agreeBelow (explodeR v)
        (cn_explode_scratchpad { c1 with first_half := false } v).scratch
        (cn_explode_scratchpad { c2 with first_half := false } v).scratch := by
      intro j hj
      rw [explode_scratch_eq, explode_scratch_eq]
      simp only [hj, if_pos]
      simp [hm, hL, hsave hm]
    have hx2 := fun x => implode_steps_eq (cn_aes_genkey (laneWords c2.stateLanes 4))
      hagree2 ((v.memory / 16 / 2 + 7) / 8) 0 x hKb
    simp only [cn_implode_scratchpad, hm, if_true, hL]
    rw [explode_lanes_eq, explode_lanes_eq]
    simp only [hL]
    simp only [hL] at hx2
    rw [hx1, hx2]

/-- After the main loop the state lanes are still the Keccak expansion of
the input (the loop touches only the scratchpad). -/
theorem after_loop_lanes (input : List Nat) (c : GrCtx) (v : CnVariant) :
    (cn_after_loop input c v).stateLanes = gr_keccak input := by
  simp [cn_after_loop, explode_lanes_eq, cn_ctx_seeded]

/-- For half-memory variants the saved AES state after explode + loop is
the same for any two prior contexts: it is derived from the Keccak-seeded
state alone. -/
theorem after_loop_save (input : List Nat) (c1 c2 : GrCtx) (v : CnVariant)
    (hm : v.half_mem = true) :
    (cn_after_loop input c1 v).save_state = (cn_after_loop input c2 v).save_state := by
  simp [cn_after_loop, explode_save_eq, cn_ctx_seeded, hm]

/-- The scratchpads after explode + main loop agree on the filled region
for any two prior contexts. -/
theorem after_loop_scratch (input : List Nat) (v : CnVariant)
    (hb : v.mask + 16 ≤ 16 * explodeR v) (c1 c2 : GrCtx) :
    agreeBelow (explodeR v) (cn_after_loop input c1 v).scratch
      (cn_after_loop input c2 v).scratch := by
  have hagE : agreeBelow (explodeR v)
      (cn_explode_scratchpad (cn_ctx_seeded input c1 v) v).scratch
      (cn_explode_scratchpad (cn_ctx_seeded input c2 v) v).scratch := by
    intro j hj
    rw [explode_scratch_eq, explode_scratch_eq]
    simp only [hj, if_pos]
    cases hm : v.half_mem with
    | false => simp [cn_ctx_seeded, hm]
    | true => simp [cn_ctx_seeded, hm]
  have hlanes : (cn_explode_scratchpad (cn_ctx_seeded input c1 v) v).stateLanes =
      (cn_explode_scratchpad (cn_ctx_seeded input c2 v) v).stateLanes := by
    rw [explode_lanes_eq, explode_lanes_eq]
    simp [cn_ctx_seeded]
  simp only [cn_after_loop]
  exact (cnLoop_agree hb v.iterations
    ⟨by simp only [hlanes], by simp only [hlanes], by simp only [hlanes],
     by simp only [hlanes], by simp only [hlanes], hagE⟩).2.2.2.2.2

/-- The engine's output depends only on its input and variant, not on any
prior context contents. -/
theorem cryptonight_body_out_eq (extra : Nat → List Nat → List Nat)
    (input : List Nat) (v : CnVariant) (hb : v.mask + 16 ≤ 16 * explodeR v)
    (c1 c2 : GrCtx) :
    (cryptonight_body extra input c1 v).1 = (cryptonight_body extra input c2 v).1 := by
  have h4 := implode_lanes_eq2 v (cn_after_loop input c1 v) (cn_after_loop input c2 v)
    (by rw [after_loop_lanes, after_loop_lanes])
    (after_loop_scratch input v hb c1 c2)
    (fun hm => after_loop_save input c1 c2 v hm)
  simp only [cryptonight_body]
  rw [h4]

/-- `cryptonight_hash` writes the same digest whatever the incoming
context holds (for invalid variants both calls zero-fill). -/
theorem cryptonight_out_eq (extra : Nat → List Nat → List Nat) (input : List Nat)
    (variant : Int) (c1 c2 : GrCtx) :
    (cryptonight_hash extra input c1 variant).1 =
      (cryptonight_hash extra input c2 variant).1 := by
  unfold cryptonight_hash
  by_cases hbad : variant < 0 ∨ 5 < variant
  · rw [if_pos hbad, if_pos hbad]
  · rw [if_neg hbad, if_neg hbad]
    have ht : variant.toNat < 6 := by omega
    exact cryptonight_body_out_eq extra input _
      (variant_mask_bound _ (variant_getD_mem variant.toNat ht)) c1 c2

/-- Every pipeline prefix carries the same working data and digest
whatever context it was started with. -/
theorem pipeline_ctx_free (bank extra : Nat → List Nat → List Nat)
    (inp : List Nat) (c1 c2 : GrCtx) : ∀ parts : Nat,
    (ghostrider_pipeline bank extra inp c1 parts).1 =
      (ghostrider_pipeline bank extra inp c2 parts).1 ∧
    (ghostrider_pipeline bank extra inp c1 parts).2.1 =
      (ghostrider_pipeline bank extra inp c2 parts).2.1 := by
  intro parts
  induction parts with
  | zero => exact ⟨rfl, rfl⟩
  | succ p ih =>
    obtain ⟨hd, _⟩ := ih
    have e : ∀ c : GrCtx, ghostrider_pipeline bank extra inp c (p + 1) =
        ((cryptonight_hash extra
            (ghostrider_chain5 bank (select_indices 15 ((inp.drop 4).take 32)) p
              (ghostrider_pipeline bank extra inp c p).1)
            (ghostrider_pipeline bank extra inp c p).2.2
            (Int.ofNat ((select_indices 6 ((inp.drop 4).take 32)).getD p 0))).1.take 32 ++
            List.replicate 32 0,
          (cryptonight_hash extra
            (ghostrider_chain5 bank (select_indices 15 ((inp.drop 4).take 32)) p
              (ghostrider_pipeline bank extra inp c p).1)
            (ghostrider_pipeline bank extra inp c p).2.2
            (Int.ofNat ((select_indices 6 ((inp.drop 4).take 32)).getD p 0))).1,
          (cryptonight_hash extra
            (ghostrider_chain5 bank (select_indices 15 ((inp.drop 4).take 32)) p
              (ghostrider_pipeline bank extra inp c p).1)
            (ghostrider_pipeline bank extra inp c p).2.2
            (Int.ofNat ((select_indices 6 ((inp.drop 4).take 32)).getD p 0))).2) := by
      intro c
      simp only [ghostrider_pipeline, List.range_succ, List.foldl_append,
        List.foldl_cons, List.foldl_nil]
    rw [e, e]
    have hcn := cryptonight_out_eq extra
      (ghostrider_chain5 bank (select_indices 15 ((inp.drop 4).take 32)) p
        (ghostrider_pipeline bank extra inp c2 p).1)
      (Int.ofNat ((select_indices 6 ((inp.drop 4).take 32)).getD p 0))
      ((ghostrider_pipeline bank extra inp c1 p).2.2)
      ((ghostrider_pipeline bank extra inp c2 p).2.2)
    rw [hd, hcn]
    exact ⟨rfl, rfl⟩

/-- C6: for every input of at least 43 bytes, two `ghostrider_hash` calls
with the same input on contexts whose prior state, save-state, scratchpad
contents and half-memory flag differ arbitrarily return the same status
and write the same 32-byte output: the result depends only on the input
bytes. -/
theorem ghostrider_output_ctx_free (bank extra : Nat → List Nat → List Nat)
    (inp ob1 ob2 : List Nat) (c1 c2 : GrCtx) (hlen : 43 ≤ inp.length) :
    (ghostrider_hash bank extra (some inp) (some ob1) (some c1)).status =
      (ghostrider_hash bank extra (some inp) (some ob2) (some c2)).status ∧
    (ghostrider_hash bank extra (some inp) (some ob1) (some c1)).output =
      (ghostrider_hash bank extra (some inp) (some ob2) (some c2)).output := by
  have hnl : ¬ inp.length < 43 := by omega
  constructor
  · simp [ghostrider_hash, hnl]
  · simp only [ghostrider_hash, hnl, if_false]
    exact congrArg some (pipeline_ctx_free bank extra inp c1 c2 3).2

/-- Witness for C6: a 43-byte input on two different concrete contexts. -/
theorem ghostrider_output_ctx_free_witness :
    43 ≤ (List.replicate 43 (0 : Nat)).length ∧
    ((ghostrider_hash grBank0 grExtra0 (some (List.replicate 43 0)) (some [])
        (some grCtx0)).status =
      (ghostrider_hash grBank0 grExtra0 (some (List.replicate 43 0)) (some [7])
        (some { grCtx0 with first_half := true })).status ∧
     (ghostrider_hash grBank0 grExtra0 (some (List.replicate 43 0)) (some [])
        (some grCtx0)).output =
      (ghostrider_hash grBank0 grExtra0 (some (List.replicate 43 0)) (some [7])
        (some { grCtx0 with first_half := true })).output) :=
  ⟨by simp,
    ghostrider_output_ctx_free grBank0 grExtra0 (List.replicate 43 0) [] [7]
      grCtx0 { grCtx0 with first_half := true } (by simp)⟩
